import Mathlib

/-!
Verification of the `EdgeRunner` plugin-execution engine
(`src/edgeRunner.js`, the final multi-module variant, lines 889-1201).

The JavaScript code is shallowly embedded: records are Lean structures whose
`Option` fields model absent (`undefined`) JS properties, JS objects used as
string-keyed maps are association lists with unique keys maintained by
`objSet` (JS property assignment), and the settled outcome of one handler
invocation is an `Except` value (`.error` models a rejected promise).
`JSON.parse(JSON.stringify(x))` is the identity on the value domain modelled
here; its aliasing consequences are treated separately with an explicit heap
model (see `Heap` below).
-/

namespace EdgeRunner

/-- A CloudFront-style header entry `{key: ..., value: ...}`; either property
may be absent. -/
structure HPair where
  key : Option String := none
  value : Option String := none
deriving DecidableEq, Repr

/-- An element of a header-value array: either a plain string (Node raw
headers) or a `{key, value}` object. -/
inductive JElem where
  | jstr (s : String)
  | jobj (p : HPair)
deriving DecidableEq, Repr

/-- A JS value stored under a header name: a plain string, an array of
elements, or a bare `{key, value}` object. -/
inductive JVal where
  | jstr (s : String)
  | jarr (l : List JElem)
  | jobj (p : HPair)
deriving DecidableEq, Repr

/-- A JS object used as a header map: association list, unique keys,
insertion order preserved. -/
abbrev HeaderMap := List (String × JVal)

/-- JS property assignment `m[k] = v`: overwrite in place if the key exists
(keeping its insertion position), otherwise append. -/
def objSet {α : Type} (m : List (String × α)) (k : String) (v : α) :
    List (String × α) :=
  if m.any (fun p => p.1 == k) then
    m.map (fun p => if p.1 == k then (k, v) else p)
  else m ++ [(k, v)]

/-- JS property read `m[k]` (as `Option`). -/
def lookupA {α : Type} (m : List (String × α)) (k : String) : Option α :=
  (m.find? (fun p => p.1 == k)).map (·.2)

/-- The `String(x)` coercion of an array element. -/
def jsStringOfElem : JElem → String
  | .jstr s => s
  | .jobj _ => "[object Object]"

/-- Lowercasing of one character; header names are ASCII, where JS
`String.prototype.toLowerCase` maps exactly `A`-`Z` to `a`-`z`. -/
def lowerChar (c : Char) : Char :=
  if 'A' ≤ c ∧ c ≤ 'Z' then Char.ofNat (c.toNat + 32) else c

/-- Model of `k.toLowerCase()`. -/
def toLowerStr (s : String) : String := String.mk (s.data.map lowerChar)

/-- The value extraction of `_normalizeHeaders`:
`Array.isArray(v) ? (v[0]?.value ?? v[0]) : (v?.value ?? v)` followed by
`String(...)`. -/
def extractVal : JVal → String
  | .jarr [] => "undefined"
  | .jarr (.jobj p :: _) =>
    match p.value with
    | some s => s
    | none => "[object Object]"
  | .jarr (.jstr s :: _) => s
  | .jstr s => s
  | .jobj p =>
    match p.value with
    | some s => s
    | none => "[object Object]"

/-- Model of `_normalizeHeaders` (lines 1120-1127): rebuild the map keyed by the
lowercased name, each value a singleton `[{key: originalName, value: String(val)}]`. -/
def normalizeHeaders (input : HeaderMap) : HeaderMap :=
  input.foldl
    (fun acc kv =>
      objSet acc (toLowerStr kv.1) (.jarr [.jobj ⟨some kv.1, some (extractVal kv.2)⟩]))
    []

/-- The per-stage re-keying in `runRequestHook` / `runResponseHook`
(lines 1027-1031, 1066-1070): only the keys are lowercased, the values are
copied verbatim from the handler's result. -/
def lowercaseKeys (hs : HeaderMap) : HeaderMap :=
  hs.foldl (fun acc kv => objSet acc (toLowerStr kv.1) kv.2) []

/-- A nested `response` object a handler may return (`result.response`). -/
structure RespRec where
  status : Option String := none
  statusDescription : Option String := none
  headers : Option HeaderMap := none
deriving DecidableEq, Repr

/-- A CloudFront lifecycle record / handler result object.  `Option` fields
model absent JS properties; `rtype` models the `type` property the pipeline
writes onto the record. -/
structure CfRec where
  method : Option String := none
  uri : Option String := none
  querystring : Option String := none
  status : Option String := none
  statusDescription : Option String := none
  headers : Option HeaderMap := none
  rtype : Option String := none
  response : Option RespRec := none
deriving DecidableEq, Repr

/-- Reading the fields of a nested `response` object as a record
(`response = result.response`): properties it lacks read as `undefined`. -/
def RespRec.toCfRec (r : RespRec) : CfRec :=
  { status := r.status, statusDescription := r.statusDescription,
    headers := r.headers }

/-- JS truthiness of an optional string property (absent and `""` are falsy). -/
def strTruthy : Option String → Bool
  | none => false
  | some s => s != ""

/-- Model of `headers[k]?.[0]?.value`: first element's `value` when the value is an
array whose head is an object carrying one, `undefined` otherwise. -/
def firstVal : JVal → Option String
  | .jarr (.jobj p :: _) => p.value
  | _ => none

/-- The header loop of `_flatten` (lines 1151-1156): for each key, take the
first element's `value`; skip the key if that is `undefined`. -/
def flattenHeaders (hs : HeaderMap) : List (String × String) :=
  hs.foldl
    (fun acc kv =>
      match firstVal kv.2 with
      | some v => objSet acc (toLowerStr kv.1) v
      | none => acc)
    []

/-- Result of `_flatten`: the deep-cloned record (`rec`), the flat
header-name-to-value properties written onto it (`flat`), the rejoined
`url`, and the `_isResponse` / `type` markers.  The JS code stores all of
these as properties of one object; name collisions between flattened header
names and record fields are outside the modelled domain. -/
structure FlatOut where
  record : CfRec
  flat : List (String × String)
  url : Option String
  isResponse : Bool := false
  ftype : Option String := none
deriving DecidableEq, Repr

/-- Model of `_flatten` (lines 1148-1161): deep-clone the record, add flat
header properties, and rejoin `uri`/`querystring` into `url` when `uri` is
truthy. -/
def flatten (r : CfRec) : FlatOut :=
  let flat := match r.headers with
    | none => []
    | some hs => flattenHeaders hs
  let url := match r.uri with
    | some u =>
      if u != "" then
        some (if strTruthy r.querystring then u ++ "?" ++ r.querystring.getD "" else u)
      else none
    | none => none
  { record := r, flat := flat, url := url, ftype := r.rtype }

/-! ## Invocation adapter (`_invoke`, lines 1082-1108) -/

/-- A JS record result: a handler settles with either an object or a nullish
value. -/
abbrev SettleVal := Option CfRec

/-- How a handler signals completion to `_invoke`: through the callback,
by returning a thenable, or by throwing synchronously. -/
inductive HandlerBeh where
  | callbackOk (res : SettleVal)
  | callbackErr
  | syncThrow
  | thenableResolve (res : SettleVal)
  | thenableReject

/-- The `cf` event payload handed to a handler: `{request}` for request
stages, `{request, response}` for response stages (lines 1085-1087). -/
inductive CfEvent where
  | req (request : CfRec)
  | reqres (request : CfRec) (response : CfRec)

/-- A loaded handler, abstracted as a function from the event payload it is
handed to the way it signals completion. -/
abbrev Handler := CfEvent → HandlerBeh

/-- How `_invoke` settles its promise (lines 1095-1106): a callback error, a
synchronous throw, and a rejected thenable all `reject`; a callback result
and a resolved thenable `resolve`.  A handler that returns a plain value
without calling the callback leaves the promise pending and is outside this
model. -/
def invokeOutcome : HandlerBeh → Except Unit SettleVal
  | .callbackOk r => .ok r
  | .callbackErr => .error ()
  | .syncThrow => .error ()
  | .thenableResolve r => .ok r
  | .thenableReject => .error ()

/-- Model of `_deepClone` (lines 1163-1165) on the record value domain: the JSON
round-trip preserves these values (aliasing is modelled separately by
`Heap`). -/
def deepCloneVal (r : CfRec) : CfRec := r

/-- Model of `_invoke` for a request stage: the handler receives
`{Records: [{cf: {request: cloned}}]}`. -/
def invokeReq (h : Handler) (request : CfRec) : Except Unit SettleVal :=
  invokeOutcome (h (.req (deepCloneVal request)))

/-- Model of `_invoke` for a response stage: the handler receives
`{cf: {request: cloned.request, response: cloned.response}}`. -/
def invokeResp (h : Handler) (request response : CfRec) : Except Unit SettleVal :=
  invokeOutcome (h (.reqres (deepCloneVal request) (deepCloneVal response)))

/-! ## Header policy validator (`_validateBlacklistedHeaders`, lines 1129-1146) -/

/-- A JS primitive as compared by strict `!==`: `null`, `undefined`, or a
string. -/
inductive JPrim where
  | vnull
  | vundefined
  | vstr (s : String)
deriving DecidableEq, Repr

/-- The `getVal` closure: case-insensitively find the actual key, then read
`headers[actualKey][0]?.value`; `null` when the map is nullish or the key is
missing, `undefined` when no first value exists. -/
def getVal (headers : Option HeaderMap) (key : String) : JPrim :=
  match headers with
  | none => .vnull
  | some hs =>
    match hs.find? (fun p => toLowerStr p.1 == key) with
    | none => .vnull
    | some kv =>
      match firstVal kv.2 with
      | some s => .vstr s
      | none => .vundefined

/-- A warning line: the hook name and the blacklisted header it names. -/
abbrev Warn := String × String

/-- Model of `_validateBlacklistedHeaders`: for each of `host`, `via`, `connection`,
warn exactly when the snapshot value and the post-invocation value differ
under strict `!==`. -/
def validateBlacklistedHeaders (original final : Option HeaderMap)
    (hook : String) : List Warn :=
  ["host", "via", "connection"].filterMap (fun key =>
    if getVal original key = getVal final key then none else some (hook, key))

/-! ## Request-record construction (`_buildRequestRecord`, lines 1110-1118)

`new URL(req.url || '/', 'http://localhost')` is modelled by the WHATWG
fragment it exercises on origin-form request targets: strip the fragment,
split path from query at the first `?`, and normalize dot segments.  Inputs
needing percent-encoding, backslash rewriting, or protocol-relative (`//`)
authority parsing are outside the modelled domain. -/

/-- Split at the first occurrence of `c`: the part before it, and the part
after it (`none` when `c` does not occur). -/
def splitFirst (c : Char) : List Char → List Char × Option (List Char)
  | [] => ([], none)
  | x :: xs =>
    if x = c then ([], some xs)
    else
      let (a, b) := splitFirst c xs
      (x :: a, b)

/-- Split a character list into `/`-separated segments (always nonempty). -/
def splitSegs : List Char → List (List Char)
  | [] => [[]]
  | c :: cs =>
    if c = '/' then [] :: splitSegs cs
    else
      match splitSegs cs with
      | s :: rest => (c :: s) :: rest
      | [] => [[c]]

/-- Re-join `/`-separated segments. -/
def joinSegs : List (List Char) → List Char
  | [] => []
  | [s] => s
  | s :: rest => s ++ '/' :: joinSegs rest

/-- WHATWG dot-segment normalization: `..` pops a segment, `.` is dropped;
when a dot segment is last, the path keeps a trailing slash. -/
def normSegments : List (List Char) → List (List Char) → List (List Char)
  | stack, [] => stack
  | stack, [seg] =>
    if seg = ['.', '.'] then stack.dropLast ++ [[]]
    else if seg = ['.'] then stack ++ [[]]
    else stack ++ [seg]
  | stack, seg :: rest =>
    if seg = ['.', '.'] then normSegments stack.dropLast rest
    else if seg = ['.'] then normSegments stack rest
    else normSegments (stack ++ [seg]) rest

/-- Path/query split of `new URL(url || '/', 'http://localhost')`:
`(urlObj.pathname, urlObj.search.replace(/^\?/, ''))`. -/
def parseTarget (url0 : String) : String × String :=
  let url := if url0 = "" then "/" else url0
  let noFrag := (splitFirst '#' url.data).1
  let (pathRaw, q) := splitFirst '?' noFrag
  let path := if pathRaw.head? = some '/' then pathRaw.tail else pathRaw
  let uri := '/' :: joinSegs (normSegments [] (splitSegs path))
  (String.mk uri, String.mk (q.getD []))

/-- An incoming Node.js request as read by the runner. -/
structure HttpReq where
  method : Option String := none
  url : Option String := none
  headers : HeaderMap := []

/-- Model of `_buildRequestRecord` (lines 1110-1118). -/
def buildRequestRecord (req : HttpReq) : CfRec :=
  let pq := parseTarget (req.url.getD "")
  { method := some (if strTruthy req.method then req.method.getD "" else "GET"),
    uri := some pq.1,
    querystring := some pq.2,
    headers := some (normalizeHeaders req.headers) }

/-! ## Pipelines (`runRequestHook` lines 1005-1042, `runResponseHook`
lines 1048-1076) -/

/-- The registered modules, one ordered list per lifecycle stage
(`this.modules`, lines 903-908). -/
structure StageMap where
  viewerRequest : List Handler := []
  originRequest : List Handler := []
  originResponse : List Handler := []
  viewerResponse : List Handler := []

/-- A fault escaping the pipeline to its caller as a rejected promise. -/
inductive RunErr where
  | fault
  | typeErr
  | jsonErr
deriving DecidableEq, Repr

/-- Lines 1027-1035 for one absorbed stage result: lowercase the header keys
when the result carries headers, then `request = result; request.type = type`. -/
def absorbResult (result : CfRec) (type : String) : CfRec :=
  let result' := match result.headers with
    | some hs => { result with headers := some (lowercaseKeys hs) }
    | none => result
  { result' with rtype := some type }

/-- The warnings one stage emits: the snapshot diff is run only when the
result carries headers (line 1022). -/
def stageWarnings (origHs : HeaderMap) (result : CfRec) (type : String) :
    List Warn :=
  match result.headers with
  | some hs => validateBlacklistedHeaders (some origHs) (some hs) type
  | none => []

/-- The inner loop of `runRequestHook` over one stage's module list.
`.error .jsonErr`: `_deepClone(request.headers)` throws when the previous
result carried no headers.  `.error .fault`: a rejected `_invoke` promise
propagates out of the `async` caller.  `.error .typeErr`:
`request.type = type` on a nullish result throws a TypeError. -/
def runReqMods (mods : List Handler) (type : String) (request : CfRec)
    (ws : List Warn) : Except RunErr ((CfRec × List Warn) ⊕ (FlatOut × List Warn)) :=
  match mods with
  | [] => .ok (.inl (request, ws))
  | h :: rest =>
    match request.headers with
    | none => .error .jsonErr
    | some origHs =>
      match invokeReq h request with
      | .error _ => .error .fault
      | .ok none => .error .typeErr
      | .ok (some result) =>
        if strTruthy result.status && !strTruthy result.uri then
          .ok (.inr ({ flatten result with isResponse := true, ftype := some type }, ws))
        else
          runReqMods rest type (absorbResult result type)
            (ws ++ stageWarnings origHs result type)

/-- Model of `runRequestHook`: viewer-request modules, then origin-request modules,
then `_flatten` with `flattened.type = request.type`. -/
def runRequestHook (m : StageMap) (req : HttpReq) :
    Except RunErr (FlatOut × List Warn) :=
  let record := buildRequestRecord req
  match runReqMods m.viewerRequest "viewer-request" record [] with
  | .error e => .error e
  | .ok (.inr sc) => .ok sc
  | .ok (.inl (r1, ws1)) =>
    match runReqMods m.originRequest "origin-request" r1 ws1 with
    | .error e => .error e
    | .ok (.inr sc) => .ok sc
    | .ok (.inl (r2, ws2)) => .ok ({ flatten r2 with ftype := r2.rtype }, ws2)

/-- The captured upstream response handed to `runResponseHook`. -/
structure ResData where
  status : Option Nat := none
  headers : HeaderMap := []

/-- Model of `String(resData.status || 200)`. -/
def jsStatusString : Option Nat → String
  | some n => if n != 0 then toString n else "200"
  | none => "200"

/-- The initial response record of `runResponseHook` (lines 1050-1054). -/
def initResponse (resData : ResData) : CfRec :=
  { status := some (jsStatusString resData.status),
    statusDescription := some "OK",
    headers := some (normalizeHeaders resData.headers) }

/-- The inner loop of `runResponseHook` over one stage's module list:
`response = result.response || result`, then validate and lowercase when the
new response carries headers.  A nullish result throws a TypeError at
`result.response`. -/
def runRespMods (mods : List Handler) (type : String) (request : CfRec)
    (response : CfRec) (ws : List Warn) : Except RunErr (CfRec × List Warn) :=
  match mods with
  | [] => .ok (response, ws)
  | h :: rest =>
    match response.headers with
    | none => .error .jsonErr
    | some origHs =>
      match invokeResp h request response with
      | .error _ => .error .fault
      | .ok none => .error .typeErr
      | .ok (some result) =>
        let response' := match result.response with
          | some rb => rb.toCfRec
          | none => result
        match response'.headers with
        | some hs =>
          runRespMods rest type request
            { response' with headers := some (lowercaseKeys hs) }
            (ws ++ validateBlacklistedHeaders (some origHs) (some hs) type)
        | none => runRespMods rest type request response' ws

/-- Model of `runResponseHook`: origin-response modules, then viewer-response modules,
then `_flatten(response)`. -/
def runResponseHook (m : StageMap) (req : HttpReq) (resData : ResData) :
    Except RunErr (FlatOut × List Warn) :=
  let request := buildRequestRecord req
  match runRespMods m.originResponse "origin-response" request
      (initResponse resData) [] with
  | .error e => .error e
  | .ok (r1, ws1) =>
    match runRespMods m.viewerResponse "viewer-response" request r1 ws1 with
    | .error e => .error e
    | .ok (r2, ws2) => .ok (flatten r2, ws2)

/-! ## Module registration (`_loadFile` tail, lines 992-998) and the
variable store (`_loadFidelityFiles`, lines 1171-1183) -/

/-- What evaluating one plugin file produces: the sandbox export object's
`hookType` and `handler` properties, and the file path. -/
structure ModuleExport where
  hookType : Option String := none
  handler : Option Handler := none
  file : String := ""

/-- A configuration failure raised while building the runner. -/
inductive LoadErr where
  | restrictedVariable (key : String)
  | typeErr
deriving DecidableEq, Repr

/-- Lines 992-998: `if (mod.handler && mod.hookType) this.modules[mod.hookType].push(...)`.
A falsy `hookType` or missing handler makes the file be ignored; a truthy
`hookType` outside the four stage keys makes `undefined.push` throw a
TypeError. -/
def registerModule (m : StageMap) (e : ModuleExport) : Except LoadErr StageMap :=
  match e.handler, e.hookType with
  | some h, some t =>
    if t = "" then .ok m
    else if t = "viewer-request" then
      .ok { m with viewerRequest := m.viewerRequest ++ [h] }
    else if t = "origin-request" then
      .ok { m with originRequest := m.originRequest ++ [h] }
    else if t = "origin-response" then
      .ok { m with originResponse := m.originResponse ++ [h] }
    else if t = "viewer-response" then
      .ok { m with viewerResponse := m.viewerResponse ++ [h] }
    else .error .typeErr
  | _, _ => .ok m

/-- Model of `_load` over the evaluated exports of the discovered files: the stage map
starts from four empty lists and each file is registered in order. -/
def loadModules (es : List ModuleExport) : Except LoadErr StageMap :=
  es.foldlM registerModule {}

/-- The stage list a hook name selects, for stating registration facts. -/
def stageList (m : StageMap) (t : String) : List Handler :=
  if t = "viewer-request" then m.viewerRequest
  else if t = "origin-request" then m.originRequest
  else if t = "origin-response" then m.originResponse
  else if t = "viewer-response" then m.viewerResponse
  else []

/-- Model of `this.whitelist` (lines 913-918): the reserved names an env file may
define. -/
def whitelist : List String :=
  ["AWS_REGION", "AWS_DEFAULT_REGION", "AWS_LAMBDA_FUNCTION_NAME",
   "AWS_LAMBDA_FUNCTION_VERSION", "AWS_LAMBDA_FUNCTION_MEMORY_SIZE",
   "AWS_LAMBDA_LOG_GROUP_NAME", "AWS_LAMBDA_LOG_STREAM_NAME",
   "NODE_OPTIONS", "TZ", "LANG", "PATH"]

/-- The env half of `_loadFidelityFiles` (lines 1171-1178) over the parsed
`KEY=value` entries: each allow-listed key is stored, any other key throws
`Restricted Variable` at once. -/
def loadFidelityEnv (entries : List (String × String)) :
    Except LoadErr (List (String × String)) :=
  entries.foldlM
    (fun env kv =>
      if whitelist.contains kv.1 then .ok (objSet env kv.1 kv.2)
      else .error (.restrictedVariable kv.1))
    []

/-- The fully constructed runner state. -/
structure RunnerState where
  envVars : List (String × String)
  modules : StageMap

/-- The constructor sequence `_loadFidelityFiles(); _load();`
(lines 920-921): a thrown `Restricted Variable` aborts construction before
any module is loaded or any request served. -/
def initRunner (envEntries : List (String × String))
    (files : List ModuleExport) : Except LoadErr RunnerState :=
  match loadFidelityEnv envEntries with
  | .error e => .error e
  | .ok env =>
    match loadModules files with
    | .error e => .error e
    | .ok mods => .ok ⟨env, mods⟩

/-! ## Variable baking (line 950)

`code.replace(/__([A-Z0-9_.-]+)__/g, (m, key) => this.bakeVars[key] ?? m)`:
a left-to-right global scan; at each match the replacer function's return
value is spliced in literally (function replacers perform no `$`
interpretation), and scanning resumes after the match. -/

/-- The character class `[A-Z0-9_.-]`. -/
def isBakeChar (c : Char) : Bool :=
  ('A' ≤ c && c ≤ 'Z') || ('0' ≤ c && c ≤ '9') || c == '_' || c == '.' || c == '-'

/-- The backtracking end position of the greedy group: the largest `g ≥ 1`
such that `run[g] = run[g+1] = '_'`, so that the group captures `run.take g`
and the closing `__` matches inside the run. -/
def backtrackEnd (run : List Char) : Option Nat :=
  (List.range run.length).reverse.find? (fun g =>
    decide (1 ≤ g) && (run.get? g == some '_') && (run.get? (g + 1) == some '_'))

/-- One attempt of `/__([A-Z0-9_.-]+)__/` at the head of `s`: on success,
the captured name, the full matched text, and the characters after the
match.  The run of token characters after the opening `__` is maximal; the
closing `__` is found by backtracking inside it (the character after the
run can never be `_`). -/
def matchBakeToken (s : List Char) :
    Option (List Char × List Char × List Char) :=
  match s with
  | c₁ :: c₂ :: t =>
    if c₁ = '_' ∧ c₂ = '_' then
      let run := t.takeWhile isBakeChar
      let rest := t.dropWhile isBakeChar
      match backtrackEnd run with
      | some g => some (run.take g, '_' :: '_' :: run.take (g + 2),
          run.drop (g + 2) ++ rest)
      | none => none
    else none
  | _ => none

theorem matchBakeToken_after_lt (s name matched after : List Char)
    (h : matchBakeToken s = some (name, matched, after)) :
    after.length < s.length := by
  match s with
  | [] => simp [matchBakeToken] at h
  | [c] => simp [matchBakeToken] at h
  | c₁ :: c₂ :: t =>
    simp only [matchBakeToken] at h
    by_cases hc : c₁ = '_' ∧ c₂ = '_'
    · rw [if_pos hc] at h
      rcases hg : backtrackEnd (t.takeWhile isBakeChar) with _ | g <;>
        rw [hg] at h
      · simp at h
      · simp only [Option.some.injEq, Prod.mk.injEq] at h
        obtain ⟨-, -, h3⟩ := h
        subst h3
        have h4 : (t.takeWhile isBakeChar).length + (t.dropWhile isBakeChar).length
            = t.length := by
          rw [← List.length_append, List.takeWhile_append_dropWhile]
        have h5 := List.length_drop (g + 2) (t.takeWhile isBakeChar)
        simp only [List.length_append, List.length_cons]
        omega
    · rw [if_neg hc] at h
      simp at h

/-- The global scan of `String.prototype.replace` with the `g` flag: find
the leftmost match, splice the replacer's literal return, continue after the
match; the replacement text is not rescanned. -/
def bakeScan (vars : List (String × String)) : List Char → List Char
  | [] => []
  | c :: cs =>
    match h : matchBakeToken (c :: cs) with
    | some (name, matched, after) =>
      (match lookupA vars (String.mk name) with
       | some v => v.data
       | none => matched) ++ bakeScan vars after
    | none => c :: bakeScan vars cs
termination_by s => s.length
decreasing_by
  · exact matchBakeToken_after_lt _ _ _ _ h
  · simp

/-- Variable baking of one source text. -/
def bakeReplace (vars : List (String × String)) (code : String) : String :=
  String.mk (bakeScan vars code.data)

/-! ## Heap model for `_deepClone` aliasing (lines 1082-1108, 1163-1165)

Claims about object identity and post-resolution mutation need aliasing,
which the pure value embedding above erases.  Records are stored in
heap cells addressed by `Nat` references; `JSON.parse(JSON.stringify(x))`
allocates a fresh cell holding the same value, so no reference reachable
from the original aliases the clone.  One cell holds a whole record tree,
which is sound for `_deepClone` because the JSON round-trip refreshes the
entire tree at once. -/

structure Heap where
  next : Nat
  cells : List (Nat × CfRec)

/-- Every allocated reference is below the allocation counter. -/
def Heap.wf (h : Heap) : Prop := ∀ p ∈ h.cells, p.1 < h.next

def Heap.lookupRef (h : Heap) (r : Nat) : Option CfRec :=
  (h.cells.find? (fun p => p.1 == r)).map (·.2)

def Heap.alloc (h : Heap) (v : CfRec) : Heap × Nat :=
  (⟨h.next + 1, (h.next, v) :: h.cells⟩, h.next)

/-- A mutation performed through a reference (`req.method = 'X'` and the
like): replace the record stored at `r`. -/
def Heap.writeRef (h : Heap) (r : Nat) (v : CfRec) : Heap :=
  ⟨h.next, h.cells.map (fun p => if p.1 = r then (r, v) else p)⟩

/-- Model of `_deepClone`: read the record and allocate a fresh cell with the same
value. -/
def deepCloneRef (h : Heap) (r : Nat) : Option (Heap × Nat) :=
  (h.lookupRef r).map h.alloc

/-- The hand-off of `_invoke` (line 1084): the record the handler receives
is `_deepClone(record)`, never the caller's reference. -/
def invokeHandoff (h : Heap) (r : Nat) : Option (Heap × Nat) :=
  deepCloneRef h r

/-- The caller's observation of a settled result: `_flatten` starts with
`const out = this._deepClone(obj)` (line 1150), so the object returned to
the caller of `runRequestHook` lives in a fresh cell. -/
def observeResult (h : Heap) (r : Nat) : Option (Heap × Nat) :=
  deepCloneRef h r

/-! ## Map lemmas -/

theorem lookupA_cons {α : Type} (kv : String × α) (m : List (String × α))
    (k : String) :
    lookupA (kv :: m) k = if kv.1 == k then some kv.2 else lookupA m k := by
  by_cases h : kv.1 == k
  · simp [lookupA, List.find?_cons_of_pos, h]
  · simp only [Bool.not_eq_true] at h
    simp [lookupA, List.find?_cons_of_neg, h]

theorem find?_map_keyUpdate_ne {α : Type} (m : List (String × α))
    (k k' : String) (v : α) (h : k' ≠ k) :
    (m.map (fun p => if p.1 == k then (k, v) else p)).find? (fun p => p.1 == k')
      = m.find? (fun p => p.1 == k') := by
  induction m with
  | nil => rfl
  | cons p rest ih =>
    by_cases hp : p.1 == k
    · have hpk : p.1 = k := by simpa using hp
      simp only [List.map_cons, if_pos hp]
      have h1 : ¬ ((fun q : String × α => q.1 == k') (k, v) = true) := by
        simp
        exact fun hh => h hh.symm
      have h2 : ¬ ((fun q : String × α => q.1 == k') p = true) := by
        simp [hpk]
        exact fun hh => h hh.symm
      rw [@List.find?_cons_of_neg _ (fun q => q.1 == k') (k, v) _ h1,
        @List.find?_cons_of_neg _ (fun q => q.1 == k') p _ h2, ih]
    · simp only [List.map_cons, if_neg hp]
      by_cases hq : p.1 == k'
      · rw [@List.find?_cons_of_pos _ (fun q => q.1 == k') p _ hq,
          @List.find?_cons_of_pos _ (fun q => q.1 == k') p _ hq]
      · rw [@List.find?_cons_of_neg _ (fun q => q.1 == k') p _ hq,
          @List.find?_cons_of_neg _ (fun q => q.1 == k') p _ hq, ih]

theorem find?_map_keyUpdate_self {α : Type} (m : List (String × α))
    (k : String) (v : α) (hany : m.any (fun p => p.1 == k) = true) :
    (m.map (fun p => if p.1 == k then (k, v) else p)).find? (fun p => p.1 == k)
      = some (k, v) := by
  induction m with
  | nil => simp at hany
  | cons p rest ih =>
    by_cases hp : p.1 == k
    · simp only [List.map_cons, if_pos hp]
      exact List.find?_cons_of_pos _ (by simp)
    · simp only [List.any_cons, hp, Bool.false_or] at hany
      simp only [List.map_cons, if_neg hp]
      rw [List.find?_cons_of_neg _ (by simp_all), ih hany]

/-- The value read back from a JS property assignment. -/
theorem lookupA_objSet {α : Type} (m : List (String × α)) (k : String)
    (v : α) (k' : String) :
    lookupA (objSet m k v) k' = if k' = k then some v else lookupA m k' := by
  unfold objSet lookupA
  by_cases hany : m.any (fun p => p.1 == k) = true
  · rw [if_pos hany]
    by_cases hk : k' = k
    · subst hk
      rw [find?_map_keyUpdate_self m k' v hany, if_pos rfl]
      rfl
    · rw [find?_map_keyUpdate_ne m k k' v hk, if_neg hk]
  · rw [if_neg hany]
    simp only [List.any_eq_true, Bool.not_eq_true] at hany
    push_neg at hany
    by_cases hk : k' = k
    · subst hk
      have hnone : m.find? (fun p => p.1 == k') = none := by
        rw [List.find?_eq_none]
        intro x hx
        simp [hany x hx]
      rw [List.find?_append, hnone, if_pos rfl]
      simp
    · have h2 : List.find? (fun p => p.1 == k') [(k, v)] = none := by
        rw [List.find?_eq_none]
        intro x hx
        simp only [List.mem_singleton] at hx
        subst hx
        simp only [beq_iff_eq]
        exact fun hh => hk hh.symm
      rw [List.find?_append, h2, if_neg hk]
      simp

/-- Every entry of the assigned map comes from the old map or is the
assigned pair. -/
theorem mem_objSet {α : Type} {m : List (String × α)} {k : String} {v : α}
    {x : String × α} (hx : x ∈ objSet m k v) : x ∈ m ∨ x = (k, v) := by
  unfold objSet at hx
  by_cases hany : m.any (fun p => p.1 == k) = true
  · rw [if_pos hany] at hx
    obtain ⟨p, hp, hpx⟩ := List.mem_map.mp hx
    by_cases hpk : p.1 == k
    · right
      rw [if_pos hpk] at hpx
      exact hpx.symm
    · left
      rw [if_neg hpk] at hpx
      exact hpx ▸ hp
  · rw [if_neg hany] at hx
    rcases List.mem_append.mp hx with h | h
    · exact Or.inl h
    · exact Or.inr (List.mem_singleton.mp h)

/-! ## Claim C2: handler-failure handling -/

/-- C2, counterexample: a viewer-request handler that throws synchronously
does not leave the pipeline running with the prior record — the rejection
propagates to the caller of `runRequestHook` as a fault, contradicting the
claim that a handler failure is treated as a no-op stage and never
propagated. -/
theorem handlerFailurePropagates_cex :
    runRequestHook { viewerRequest := [fun _ => HandlerBeh.syncThrow] }
      { url := some "/" } = .error .fault := rfl

/-- C2 (amended): every handler failure — a synchronous throw, a rejected
thenable, or a truthy error passed to the callback — rejects the `_invoke`
promise, and the rejection propagates to the caller of `runRequestHook` /
`runResponseHook` as a fault; a stage that settles with a nullish result
likewise aborts the pipeline with a TypeError instead of continuing with
the prior record. -/
theorem buildRequestRecord_headers (req : HttpReq) :
    (buildRequestRecord req).headers = some (normalizeHeaders req.headers) := rfl

theorem initResponse_headers (resData : ResData) :
    (initResponse resData).headers = some (normalizeHeaders resData.headers) := rfl

theorem handlerFailureFaultsPipeline (h : Handler) (req : HttpReq)
    (resData : ResData) :
    (invokeOutcome HandlerBeh.syncThrow = .error () ∧
     invokeOutcome HandlerBeh.callbackErr = .error () ∧
     invokeOutcome HandlerBeh.thenableReject = .error ())
    ∧ (invokeReq h (buildRequestRecord req) = .error () →
        runRequestHook { viewerRequest := [h] } req = .error .fault)
    ∧ (invokeReq h (buildRequestRecord req) = .ok none →
        runRequestHook { viewerRequest := [h] } req = .error .typeErr)
    ∧ (invokeResp h (buildRequestRecord req) (initResponse resData) = .error () →
        runResponseHook { originResponse := [h] } req resData = .error .fault) := by
  refine ⟨⟨rfl, rfl, rfl⟩, ?_, ?_, ?_⟩
  · intro herr
    simp [runRequestHook, runReqMods, buildRequestRecord_headers, herr]
  · intro hnull
    simp [runRequestHook, runReqMods, buildRequestRecord_headers, hnull]
  · intro herr
    simp [runResponseHook, runRespMods, initResponse_headers, herr]

/-- C2 witness: the amended theorem applied to a concrete callback-error
handler. -/
theorem handlerFailureFaultsPipeline_witness :
    runRequestHook { viewerRequest := [fun _ => HandlerBeh.callbackErr] }
      { url := some "/" } = .error .fault :=
  (handlerFailureFaultsPipeline (fun _ => HandlerBeh.callbackErr)
    { url := some "/" } {}).2.1 rfl

/-! ## Claim C4: duplicate stage binding -/

/-- C4, counterexample: loading a second module for an already-occupied
stage is accepted — both handlers end up registered for the stage, in load
order, and no `DuplicateStageBinding` error is raised. -/
theorem duplicateStageAccepted_cex :
    loadModules
      [⟨some "viewer-request", some (fun _ => .callbackOk none), "a.js"⟩,
       ⟨some "viewer-request", some (fun _ => .callbackErr), "b.js"⟩]
      = .ok { viewerRequest := [fun _ => .callbackOk none, fun _ => .callbackErr] } := rfl

/-- C4 (amended): for every plugin directory, loading a second module that
declares a lifecycle stage already occupied by another module succeeds and
appends the new handler to that stage's ordered list (both run in
sequence); no fatal duplicate-stage error exists. -/
theorem duplicateStageAppends (m : StageMap) (t : String)
    (ht : t ∈ ["viewer-request", "origin-request", "origin-response", "viewer-response"])
    (h₁ h₂ : Handler) (f₁ f₂ : String) :
    ∃ m₁ m₂,
      registerModule m ⟨some t, some h₁, f₁⟩ = .ok m₁ ∧
      registerModule m₁ ⟨some t, some h₂, f₂⟩ = .ok m₂ ∧
      stageList m₂ t = stageList m t ++ [h₁, h₂] := by
  simp only [List.mem_cons, List.mem_singleton, List.not_mem_nil, or_false] at ht
  rcases ht with rfl | rfl | rfl | rfl <;>
    exact ⟨_, _, rfl, rfl, by simp [stageList]⟩

/-- C4 witness: the amended theorem applied to a concrete stage and pair of
handlers. -/
theorem duplicateStageAppends_witness :
    ∃ m₁ m₂,
      registerModule {} ⟨some "origin-request", some (fun _ => HandlerBeh.callbackErr), "a.js"⟩ = .ok m₁ ∧
      registerModule m₁ ⟨some "origin-request", some (fun _ => HandlerBeh.syncThrow), "b.js"⟩ = .ok m₂ ∧
      stageList m₂ "origin-request" = stageList {} "origin-request" ++
        [fun _ => HandlerBeh.callbackErr, fun _ => HandlerBeh.syncThrow] :=
  duplicateStageAppends {} "origin-request" (by simp)
    (fun _ => HandlerBeh.callbackErr) (fun _ => HandlerBeh.syncThrow) "a.js" "b.js"

/-! ## Claim C6: restricted environment variables -/

theorem exceptBind_ok {ε α β : Type} (a : α) (f : α → Except ε β) :
    (Except.ok a >>= f) = f a := rfl

theorem exceptBind_err {ε α β : Type} (e : ε) (f : α → Except ε β) :
    ((Except.error e : Except ε α) >>= f) = .error e := rfl

theorem loadFidelityEnv_loop_err (entries : List (String × String))
    (acc : List (String × String))
    (hbad : ∃ kv ∈ entries, kv.1 ∉ whitelist) :
    ∃ k, k ∉ whitelist ∧
      entries.foldlM
        (fun env kv =>
          if whitelist.contains kv.1 then Except.ok (objSet env kv.1 kv.2)
          else Except.error (LoadErr.restrictedVariable kv.1)) acc
        = .error (.restrictedVariable k) := by
  induction entries generalizing acc with
  | nil => simp at hbad
  | cons kv rest ih =>
    rw [List.foldlM_cons]
    by_cases hw : kv.1 ∈ whitelist
    · have hc : whitelist.contains kv.1 = true := by simpa using hw
      rw [if_pos hc, exceptBind_ok]
      obtain ⟨kv', hkv', hbad'⟩ := hbad
      rcases List.mem_cons.mp hkv' with rfl | hmem
      · exact absurd hw hbad'
      · exact ih (objSet acc kv.1 kv.2) ⟨kv', hmem, hbad'⟩
    · have hc : ¬ (whitelist.contains kv.1 = true) := by simpa using hw
      rw [if_neg hc, exceptBind_err]
      exact ⟨kv.1, hw, rfl⟩

theorem loadFidelityEnv_loop_ok (entries : List (String × String))
    (acc : List (String × String))
    (hgood : ∀ kv ∈ entries, kv.1 ∈ whitelist) :
    ∃ env,
      entries.foldlM
        (fun env kv =>
          if whitelist.contains kv.1 then Except.ok (objSet env kv.1 kv.2)
          else Except.error (LoadErr.restrictedVariable kv.1)) acc
        = .ok env ∧
      (∀ kv ∈ entries, (lookupA env kv.1).isSome = true) ∧
      (∀ k, (lookupA acc k).isSome = true → (lookupA env k).isSome = true) := by
  induction entries generalizing acc with
  | nil => exact ⟨acc, rfl, by simp, fun _ hk => hk⟩
  | cons kv rest ih =>
    have hw := hgood kv (List.mem_cons_self kv rest)
    have hc : whitelist.contains kv.1 = true := by simpa using hw
    obtain ⟨env, henv, hall, hpres⟩ :=
      ih (objSet acc kv.1 kv.2) (fun kv' h => hgood kv' (List.mem_cons_of_mem _ h))
    refine ⟨env, ?_, ?_, ?_⟩
    · rw [List.foldlM_cons, if_pos hc, exceptBind_ok]
      exact henv
    · intro kv' hkv'
      rcases List.mem_cons.mp hkv' with rfl | hmem
      · exact hpres kv'.1 (by simp [lookupA_objSet])
      · exact hall kv' hmem
    · intro k hk
      refine hpres k ?_
      rw [lookupA_objSet]
      by_cases hkk : k = kv.1 <;> simp [hkk, hk]

/-- C6: if any key of the env file lies outside the reserved allow-list,
construction raises the restricted-variable failure and aborts before any
module is loaded or request served — even when every other key is
allow-listed; an env file whose keys are all allow-listed populates
`envVars` without error. -/
theorem restrictedEnvAborts (entries : List (String × String))
    (files : List ModuleExport) :
    ((∃ kv ∈ entries, kv.1 ∉ whitelist) →
      ∃ k, k ∉ whitelist ∧
        initRunner entries files = .error (.restrictedVariable k))
    ∧ ((∀ kv ∈ entries, kv.1 ∈ whitelist) →
      ∃ env, loadFidelityEnv entries = .ok env ∧
        ∀ kv ∈ entries, (lookupA env kv.1).isSome = true) := by
  constructor
  · intro hbad
    obtain ⟨k, hk, herr⟩ := loadFidelityEnv_loop_err entries [] hbad
    refine ⟨k, hk, ?_⟩
    unfold initRunner loadFidelityEnv
    rw [herr]
  · intro hgood
    obtain ⟨env, henv, hall, -⟩ := loadFidelityEnv_loop_ok entries [] hgood
    exact ⟨env, henv, hall⟩

/-- C6 witness: a concrete env file with one non-reserved key among reserved
ones aborts construction, and a fully reserved file loads. -/
theorem restrictedEnvAborts_witness :
    (∃ k, k ∉ whitelist ∧
      initRunner [("TZ", "UTC"), ("MY_SECRET", "x"), ("LANG", "C")] []
        = .error (.restrictedVariable k))
    ∧ (∃ env,
        loadFidelityEnv [("TZ", "UTC"), ("LANG", "C")] = .ok env ∧
        ∀ kv ∈ [("TZ", "UTC"), ("LANG", "C")], (lookupA env kv.1).isSome = true) :=
  ⟨(restrictedEnvAborts [("TZ", "UTC"), ("MY_SECRET", "x"), ("LANG", "C")] []).1
      ⟨("MY_SECRET", "x"), by simp, by decide⟩,
   (restrictedEnvAborts [("TZ", "UTC"), ("LANG", "C")] []).2 (by decide)⟩

/-! ## Claim C7: header policy validator -/

/-- The stage-result component of the request loop, with the accumulated
warning list stripped. -/
def pipeOutcome : (CfRec × List Warn) ⊕ (FlatOut × List Warn) → CfRec ⊕ FlatOut
  | .inl (r, _) => .inl r
  | .inr (o, _) => .inr o

/-- C7, counterexample: a modified header with the reserved platform prefix
`x-amz-` triggers no warning — the validator checks only `host`, `via` and
`connection`, contradicting the claim that prefixed platform names are part
of the restricted set. -/
theorem prefixedHeaderUnflagged_cex :
    validateBlacklistedHeaders
      (some [("x-amz-cf-id", .jarr [.jobj ⟨some "X-Amz-Cf-Id", some "a"⟩])])
      (some [("x-amz-cf-id", .jarr [.jobj ⟨some "X-Amz-Cf-Id", some "b"⟩])])
      "origin-request" = []
    ∧ getVal (some [("x-amz-cf-id", .jarr [.jobj ⟨some "X-Amz-Cf-Id", some "a"⟩])]) "x-amz-cf-id"
      ≠ getVal (some [("x-amz-cf-id", .jarr [.jobj ⟨some "X-Amz-Cf-Id", some "b"⟩])]) "x-amz-cf-id" := by
  exact ⟨by decide, by decide⟩

/-- C7 (amended): after a stage invocation whose result carries headers, the
validator compares the snapshot and post-invocation value of each header in
the fixed set `host`, `via`, `connection` (no prefix families) and emits a
warning naming the stage and header exactly when they differ; the warnings
never feed back into the pipeline's stage results. -/
theorem headerPolicyWarnsIffDiff (original final : Option HeaderMap)
    (hook k : String) (mods : List Handler) (type : String) (r : CfRec)
    (ws ws' : List Warn) :
    ((hook, k) ∈ validateBlacklistedHeaders original final hook ↔
      (k ∈ ["host", "via", "connection"] ∧ getVal original k ≠ getVal final k))
    ∧ (runReqMods mods type r ws).map pipeOutcome
        = (runReqMods mods type r ws').map pipeOutcome := by
  constructor
  · simp only [validateBlacklistedHeaders, List.mem_filterMap]
    constructor
    · rintro ⟨key, hkey, hif⟩
      by_cases hd : getVal original key = getVal final key
      · simp [hd] at hif
      · simp only [if_neg hd, Option.some.injEq, Prod.mk.injEq] at hif
        exact ⟨hif.2 ▸ hkey, hif.2 ▸ hd⟩
    · rintro ⟨hk, hd⟩
      exact ⟨k, hk, by simp [hd]⟩
  · induction mods generalizing r ws ws' with
    | nil => rfl
    | cons h rest ih =>
      simp only [runReqMods]
      cases r.headers with
      | none => rfl
      | some origHs =>
        cases invokeReq h r with
        | error e => rfl
        | ok res =>
          cases res with
          | none => rfl
          | some result =>
            by_cases hsc : (strTruthy result.status && !strTruthy result.uri) = true
            · simp [hsc, Except.map, pipeOutcome]
            · simp only [Bool.not_eq_true] at hsc
              simp only [hsc, Bool.false_eq_true, if_false]
              exact ih _ _ _

/-- C7 witness: the amended theorem applied to a concrete changed `host`
header. -/
theorem headerPolicyWarnsIffDiff_witness :
    ("viewer-request", "host") ∈ validateBlacklistedHeaders
      (some [("host", .jarr [.jobj ⟨some "Host", some "a"⟩])])
      (some [("host", .jarr [.jobj ⟨some "Host", some "b"⟩])])
      "viewer-request" :=
  (headerPolicyWarnsIffDiff
    (some [("host", .jarr [.jobj ⟨some "Host", some "a"⟩])])
    (some [("host", .jarr [.jobj ⟨some "Host", some "b"⟩])])
    "viewer-request" "host" [] "viewer-request" {} [] []).1.mpr
    ⟨by simp, by decide⟩

/-! ## Claim C3: short-circuit on a generated response -/

/-- C3: when the viewer-request stage's handler resolves to a result whose
`status` is truthy and whose `uri` is falsy, `runRequestHook` returns the
flattened result as a terminal short-circuit response — the same output for
every origin-request module list, so the origin handler is never invoked;
otherwise the origin-request handler is fed exactly the absorbed result
(deep-cloned), i.e. the run depends on the origin handler only through its
value at that record. -/
theorem viewerRequestShortCircuit (h : Handler) (req : HttpReq) (res : CfRec)
    (hres : invokeReq h (buildRequestRecord req) = .ok (some res)) :
    ((strTruthy res.status && !strTruthy res.uri) = true →
      ∀ ors : List Handler,
        runRequestHook { viewerRequest := [h], originRequest := ors } req =
          .ok ({ flatten res with isResponse := true, ftype := some "viewer-request" }, []))
    ∧ ((strTruthy res.status && !strTruthy res.uri) = false →
      ∀ g g' : Handler,
        g (.req (deepCloneVal (absorbResult res "viewer-request")))
          = g' (.req (deepCloneVal (absorbResult res "viewer-request"))) →
        runRequestHook { viewerRequest := [h], originRequest := [g] } req =
          runRequestHook { viewerRequest := [h], originRequest := [g'] } req) := by
  constructor
  · intro hsc ors
    simp [runRequestHook, runReqMods, buildRequestRecord_headers, hres, hsc]
  · intro hsc g g' hagree
    have hgg : invokeReq g (absorbResult res "viewer-request")
        = invokeReq g' (absorbResult res "viewer-request") := by
      unfold invokeReq
      rw [hagree]
    simp [runRequestHook, runReqMods, buildRequestRecord_headers, hres, hsc, hgg]

/-- C3 witness: a concrete `301` viewer-request handler short-circuits, and
an origin-request handler that would throw is never reached. -/
theorem viewerRequestShortCircuit_witness :
    runRequestHook
      { viewerRequest := [fun _ => HandlerBeh.callbackOk (some { status := some "301" })],
        originRequest := [fun _ => HandlerBeh.syncThrow] }
      { url := some "/old-page" } =
      .ok ({ flatten { status := some "301" } with
              isResponse := true, ftype := some "viewer-request" }, []) :=
  (viewerRequestShortCircuit
    (fun _ => HandlerBeh.callbackOk (some { status := some "301" }))
    { url := some "/old-page" } { status := some "301" } rfl).1 rfl
    [fun _ => HandlerBeh.syncThrow]

/-! ## Claim C10: flatten keeps only the first value -/

theorem lookupA_eq_none {α : Type} (m : List (String × α)) (k : String)
    (hk : k ∉ m.map Prod.fst) : lookupA m k = none := by
  unfold lookupA
  rw [List.find?_eq_none.mpr]
  · rfl
  · intro x hx
    simp only [beq_iff_eq]
    exact fun hh => hk (hh ▸ List.mem_map_of_mem Prod.fst hx)

theorem flattenHeaders_loop (hs : HeaderMap) (acc : List (String × String))
    (hlow : ∀ k ∈ hs.map Prod.fst, toLowerStr k = k)
    (hnd : (hs.map Prod.fst).Nodup)
    (hdisj : ∀ kv ∈ hs, lookupA acc kv.1 = none) (k : String) :
    lookupA
      (hs.foldl
        (fun acc kv =>
          match firstVal kv.2 with
          | some v => objSet acc (toLowerStr kv.1) v
          | none => acc)
        acc) k
      = (lookupA acc k).or ((lookupA hs k).bind firstVal) := by
  induction hs generalizing acc with
  | nil => simp [lookupA]
  | cons kv rest ih =>
    have hk1 : toLowerStr kv.1 = kv.1 := hlow kv.1 (by simp)
    have hnd2 : kv.1 ∉ rest.map Prod.fst ∧ (rest.map Prod.fst).Nodup := by
      rw [List.map_cons, List.nodup_cons] at hnd
      exact hnd
    have hnotin : kv.1 ∉ rest.map Prod.fst := hnd2.1
    have hnd' : (rest.map Prod.fst).Nodup := hnd2.2
    have hlow' : ∀ k' ∈ rest.map Prod.fst, toLowerStr k' = k' :=
      fun k' hk' => hlow k' (by simp [hk'])
    have hacc1 : lookupA acc kv.1 = none := hdisj kv (by simp)
    simp only [List.foldl_cons]
    cases hfv : firstVal kv.2 with
    | some v =>
      have hdisj' : ∀ kv' ∈ rest, lookupA (objSet acc (toLowerStr kv.1) v) kv'.1 = none := by
        intro kv' hkv'
        rw [hk1, lookupA_objSet]
        have hne : kv'.1 ≠ kv.1 := by
          intro hh
          exact hnotin (hh ▸ List.mem_map_of_mem Prod.fst hkv')
        rw [if_neg hne]
        exact hdisj kv' (List.mem_cons_of_mem _ hkv')
      rw [ih _ hlow' hnd' hdisj', hk1, lookupA_objSet, lookupA_cons]
      by_cases hkk : k = kv.1
      · subst hkk
        simp [hacc1, lookupA_eq_none rest kv.1 hnotin, hfv]
      · have : ¬ (kv.1 == k) = true := by simpa using fun hh => hkk hh.symm
        simp [hkk, this]
    | none =>
      have hdisj' : ∀ kv' ∈ rest, lookupA acc kv'.1 = none :=
        fun kv' hkv' => hdisj kv' (List.mem_cons_of_mem _ hkv')
      rw [ih _ hlow' hnd' hdisj', lookupA_cons]
      by_cases hkk : k = kv.1
      · subst hkk
        simp [hacc1, lookupA_eq_none rest kv.1 hnotin, hfv]
      · have : ¬ (kv.1 == k) = true := by simpa using fun hh => hkk hh.symm
        simp [this]

/-- C10: in the flat map built by `_flatten`, each header name maps to the
`value` of the first element of its list only — further elements are
dropped, and a header whose list is empty or whose first element carries no
`value` (or whose value is not such a list at all) is omitted. -/
theorem flattenFirstValueOnly (hs : HeaderMap)
    (hlow : ∀ k ∈ hs.map Prod.fst, toLowerStr k = k)
    (hnd : (hs.map Prod.fst).Nodup) (k : String) :
    lookupA (flattenHeaders hs) k =
      match lookupA hs k with
      | some (JVal.jarr (JElem.jobj p :: _)) => p.value
      | _ => none := by
  have h := flattenHeaders_loop hs [] hlow hnd (by intro kv _; rfl) k
  rw [flattenHeaders, h]
  have hnil : lookupA ([] : List (String × String)) k = none := rfl
  rw [hnil, Option.none_or]
  cases hlk : lookupA hs k with
  | none => rfl
  | some v =>
    cases v with
    | jstr s => rfl
    | jobj p => rfl
    | jarr l =>
      cases l with
      | nil => rfl
      | cons e tl =>
        cases e with
        | jstr s => rfl
        | jobj p => rfl

/-- C10 witness: the theorem applied to a concrete post-normalization header
map with a two-element list, an empty list, a value-less first element, and
a plain-string value. -/
theorem flattenFirstValueOnly_witness :
    lookupA (flattenHeaders
      [("content-type", .jarr [.jobj ⟨some "Content-Type", some "text/html"⟩,
                               .jobj ⟨some "Content-Type", some "junk"⟩]),
       ("x-empty", .jarr []),
       ("x-noval", .jarr [.jobj ⟨some "X-NoVal", none⟩]),
       ("set-cookie", .jstr "a=b")]) "content-type" = some "text/html" :=
  (flattenFirstValueOnly
    [("content-type", .jarr [.jobj ⟨some "Content-Type", some "text/html"⟩,
                             .jobj ⟨some "Content-Type", some "junk"⟩]),
     ("x-empty", .jarr []),
     ("x-noval", .jarr [.jobj ⟨some "X-NoVal", none⟩]),
     ("set-cookie", .jstr "a=b")]
    (by decide) (by decide) "content-type").trans rfl

/-! ## Claim C9: the header-map representation invariant -/

/-- The representation the claim describes: every value is an ordered list
of `{key, value}` objects with both properties present. -/
def cfShaped (hs : HeaderMap) : Bool :=
  hs.all (fun kv =>
    match kv.2 with
    | .jarr l => l.all (fun e =>
        match e with
        | .jobj p => p.key.isSome && p.value.isSome
        | .jstr _ => false)
    | _ => false)

/-- C9, counterexample: a stage result whose headers map a name to a plain
string is absorbed with only its key lowercased — the map threaded onward
(visible in the final record) maps `x-foo` to the bare string `"bar"`, not
to a list of `{key, value}` pairs, so the invariant is not re-established
after the stage. -/
theorem absorbedHeadersLoseShape_cex :
    (runRequestHook
      { viewerRequest := [fun _ => HandlerBeh.thenableResolve
          (some { uri := some "/a", headers := some [("X-Foo", JVal.jstr "bar")] })] }
      { url := some "/" }).map (fun o => o.1.record.headers)
      = .ok (some [("x-foo", JVal.jstr "bar")])
    ∧ cfShaped [("x-foo", JVal.jstr "bar")] = false := ⟨rfl, rfl⟩

theorem mem_foldl_objSet {α : Type} (P : String × α → Prop)
    (f : String × α → String) (g : String × α → α) (l : List (String × α)) :
    ∀ (acc : List (String × α)),
      (∀ x ∈ acc, P x) → (∀ kv ∈ l, P (f kv, g kv)) →
      ∀ x ∈ l.foldl (fun a kv => objSet a (f kv) (g kv)) acc, P x := by
  induction l with
  | nil => exact fun acc hacc _ => hacc
  | cons kv rest ih =>
    intro acc hacc hl
    refine ih (objSet acc (f kv) (g kv)) ?_ (fun kv' h => hl kv' (List.mem_cons_of_mem _ h))
    intro x hx
    rcases mem_objSet hx with h | h
    · exact hacc x h
    · exact h ▸ hl kv (by simp)

/-- C9 (amended): the header maps built by `_buildRequestRecord` /
`runResponseHook`'s initial record satisfy the full invariant — keyed by
lowercased name, each value a singleton `{key, value}` list with the
original display casing and a string value.  After a stage's result is
absorbed, only the lowercase keying is re-established: each entry of the
absorbed map is the handler's value verbatim under the lowercased key, so
the list-of-pairs shape holds after absorption exactly when the handler's
result already had it. -/
theorem headerMapInvariants (input : HeaderMap) (hs : HeaderMap) :
    (∀ x ∈ normalizeHeaders input,
      ∃ k s, x = (toLowerStr k, .jarr [.jobj ⟨some k, some s⟩]))
    ∧ cfShaped (normalizeHeaders input) = true
    ∧ (∀ x ∈ lowercaseKeys hs, ∃ kv ∈ hs, x = (toLowerStr kv.1, kv.2))
    ∧ (cfShaped hs = true → cfShaped (lowercaseKeys hs) = true) := by
  have h1 : ∀ x ∈ normalizeHeaders input,
      ∃ k s, x = (toLowerStr k, .jarr [.jobj ⟨some k, some s⟩]) := by
    intro x hx
    have hx' : x ∈ input.foldl
        (fun a kv => objSet a (toLowerStr kv.1)
          (JVal.jarr [JElem.jobj ⟨some kv.1, some (extractVal kv.2)⟩])) [] := hx
    exact mem_foldl_objSet
      (fun x => ∃ k s, x = (toLowerStr k, .jarr [.jobj ⟨some k, some s⟩]))
      (fun kv => toLowerStr kv.1)
      (fun kv => JVal.jarr [JElem.jobj ⟨some kv.1, some (extractVal kv.2)⟩])
      input [] (by simp) (fun kv _ => ⟨kv.1, extractVal kv.2, rfl⟩) x hx'
  have h3 : ∀ x ∈ lowercaseKeys hs, ∃ kv ∈ hs, x = (toLowerStr kv.1, kv.2) := by
    intro x hx
    have hx' : x ∈ hs.foldl
        (fun a kv => objSet a (toLowerStr kv.1) kv.2) [] := hx
    exact mem_foldl_objSet
      (fun x => ∃ kv ∈ hs, x = (toLowerStr kv.1, kv.2))
      (fun kv => toLowerStr kv.1) (fun kv => kv.2)
      hs [] (by simp) (fun kv hkv => ⟨kv, hkv, rfl⟩) x hx'
  refine ⟨h1, ?_, h3, ?_⟩
  · rw [cfShaped, List.all_eq_true]
    intro kv hkv
    obtain ⟨k, s, hx⟩ := h1 kv hkv
    subst hx
    rfl
  · intro hshape
    rw [cfShaped, List.all_eq_true]
    intro x hx
    obtain ⟨kv, hkv, hxe⟩ := h3 x hx
    subst hxe
    exact (List.all_eq_true.mp hshape) kv hkv

/-- C9 witness: the amended theorem applied to concrete inbound headers and
a concrete cf-shaped handler result. -/
theorem headerMapInvariants_witness :
    (∀ x ∈ normalizeHeaders [("User-Agent", JVal.jstr "curl")],
      ∃ k s, x = (toLowerStr k, .jarr [.jobj ⟨some k, some s⟩]))
    ∧ cfShaped (normalizeHeaders [("User-Agent", JVal.jstr "curl")]) = true
    ∧ (∀ x ∈ lowercaseKeys [("X-Foo", JVal.jarr [.jobj ⟨some "X-Foo", some "1"⟩])],
      ∃ kv ∈ [("X-Foo", JVal.jarr [.jobj ⟨some "X-Foo", some "1"⟩])],
        x = (toLowerStr kv.1, kv.2))
    ∧ (cfShaped [("X-Foo", JVal.jarr [.jobj ⟨some "X-Foo", some "1"⟩])] = true →
      cfShaped (lowercaseKeys [("X-Foo", JVal.jarr [.jobj ⟨some "X-Foo", some "1"⟩])]) = true) :=
  headerMapInvariants [("User-Agent", JVal.jstr "curl")]
    [("X-Foo", JVal.jarr [.jobj ⟨some "X-Foo", some "1"⟩])]

/-! ## Claim C1: deep-copy hand-off and post-resolution isolation -/

theorem find?_map_refUpdate_ne (cells : List (Nat × CfRec)) (r r' : Nat)
    (v : CfRec) (hne : r' ≠ r) :
    (cells.map (fun p => if p.1 = r then (r, v) else p)).find? (fun p => p.1 == r')
      = cells.find? (fun p => p.1 == r') := by
  induction cells with
  | nil => rfl
  | cons p rest ih =>
    by_cases hp : p.1 = r
    · simp only [List.map_cons, if_pos hp]
      have h1 : ¬ ((fun q : Nat × CfRec => q.1 == r') (r, v) = true) := by
        simp
        exact fun hh => hne hh.symm
      have h2 : ¬ ((fun q : Nat × CfRec => q.1 == r') p = true) := by
        simp [hp]
        exact fun hh => hne hh.symm
      rw [@List.find?_cons_of_neg _ (fun q => q.1 == r') (r, v) _ h1,
        @List.find?_cons_of_neg _ (fun q => q.1 == r') p _ h2, ih]
    · simp only [List.map_cons, if_neg hp]
      by_cases hq : (p.1 == r') = true
      · rw [@List.find?_cons_of_pos _ (fun q => q.1 == r') p _ hq,
          @List.find?_cons_of_pos _ (fun q => q.1 == r') p _ hq]
      · rw [@List.find?_cons_of_neg _ (fun q => q.1 == r') p _ hq,
          @List.find?_cons_of_neg _ (fun q => q.1 == r') p _ hq, ih]

/-- A write through one reference never changes what any other reference
holds. -/
theorem lookupRef_writeRef_ne (h : Heap) (r r' : Nat) (v : CfRec)
    (hne : r' ≠ r) : (h.writeRef r v).lookupRef r' = h.lookupRef r' := by
  unfold Heap.writeRef Heap.lookupRef
  rw [find?_map_refUpdate_ne h.cells r r' v hne]

theorem lookupRef_lt_next (h : Heap) (r : Nat) (v : CfRec) (hwf : h.wf)
    (hr : h.lookupRef r = some v) : r < h.next := by
  unfold Heap.lookupRef at hr
  cases hfind : h.cells.find? (fun p => p.1 == r) with
  | none => rw [hfind] at hr; simp at hr
  | some p =>
    have hmem := List.mem_of_find?_eq_some hfind
    have hkey : p.1 = r := by
      have := List.find?_some hfind
      simpa using this
    exact hkey ▸ hwf p hmem

/-- The freshly allocated clone holds the cloned value. -/
theorem lookupRef_alloc_self (h : Heap) (v : CfRec) :
    (h.alloc v).1.lookupRef (h.alloc v).2 = some v := by
  show Option.map (fun x => x.2)
    (List.find? (fun p => p.1 == h.next) ((h.next, v) :: h.cells)) = some v
  rw [@List.find?_cons_of_pos _ (fun p => p.1 == h.next) (h.next, v) _ (by simp)]
  rfl

/-- C1: `_invoke` hands the handler a deep copy of the caller's record —
structurally equal but a different reference — so no mutation through the
handler's reference ever changes the caller's record; and since the result
returned to the caller of `runRequestHook` is itself re-cloned by
`_flatten`, a mutation the handler performs on its copy after resolution
(e.g. `request.method = "X"` from a timer) leaves the observed record, and
in particular its `method`, at the pre-mutation value. -/
theorem invokeDeepCopyIsolation (h : Heap) (r : Nat) (v : CfRec)
    (hwf : h.wf) (hr : h.lookupRef r = some v) :
    ∃ h₁ rh, invokeHandoff h r = some (h₁, rh) ∧
      rh ≠ r ∧
      h₁.lookupRef rh = some v ∧
      h₁.lookupRef r = some v ∧
      (∀ w : CfRec, (h₁.writeRef rh w).lookupRef r = some v) ∧
      (∀ h₂ rOut, observeResult h₁ rh = some (h₂, rOut) →
        rOut ≠ rh ∧
        ∀ w : CfRec,
          (h₂.writeRef rh w).lookupRef rOut = h₂.lookupRef rOut ∧
          (h₂.writeRef rh w).lookupRef rOut = some v ∧
          ((h₂.writeRef rh w).lookupRef rOut).map (·.method) = some v.method) := by
  have hrn : r < h.next := lookupRef_lt_next h r v hwf hr
  have hne : h.next ≠ r := fun hh => absurd (hh ▸ hrn) (Nat.lt_irrefl _)
  refine ⟨(h.alloc v).1, h.next, ?_, fun hh => hne hh, ?_, ?_, ?_, ?_⟩
  · unfold invokeHandoff deepCloneRef
    rw [hr]
    rfl
  · unfold Heap.alloc Heap.lookupRef
    rw [@List.find?_cons_of_pos _ (fun p => p.1 == h.next) (h.next, v) _ (by simp)]
    rfl
  · unfold Heap.alloc Heap.lookupRef
    rw [@List.find?_cons_of_neg _ (fun p => p.1 == r) (h.next, v) _ (by simpa using hne)]
    exact hr
  · intro w
    rw [lookupRef_writeRef_ne _ h.next r w (fun hh => hne hh.symm)]
    unfold Heap.alloc Heap.lookupRef
    rw [@List.find?_cons_of_neg _ (fun p => p.1 == r) (h.next, v) _ (by simpa using hne)]
    exact hr
  · intro h₂ rOut hobs
    have hlk : (h.alloc v).1.lookupRef h.next = some v := lookupRef_alloc_self h v
    unfold observeResult deepCloneRef at hobs
    rw [hlk, Option.map_some'] at hobs
    injection hobs with hpair
    have hh2 : ((h.alloc v).1.alloc v).1 = h₂ := congrArg Prod.fst hpair
    have hout : ((h.alloc v).1.alloc v).2 = rOut := congrArg Prod.snd hpair
    subst hh2
    subst hout
    have houtne : (h.alloc v).1.next ≠ h.next := Nat.succ_ne_self h.next
    refine ⟨houtne, ?_⟩
    intro w
    have hl2 : ((h.alloc v).1.alloc v).1.lookupRef (h.alloc v).1.next = some v :=
      lookupRef_alloc_self (h.alloc v).1 v
    have hwr := lookupRef_writeRef_ne ((h.alloc v).1.alloc v).1 h.next
      (h.alloc v).1.next w houtne
    have hfin := hwr.trans hl2
    refine ⟨hwr, hfin, ?_⟩
    show ((((h.alloc v).1.alloc v).1.writeRef h.next w).lookupRef
      ((h.alloc v).1.next)).map (·.method) = some v.method
    rw [hfin]
    rfl

/-- C1 witness: the theorem applied to a concrete one-cell heap holding a
`GET` record. -/
theorem invokeDeepCopyIsolation_witness :
    ∃ h₁ rh,
      invokeHandoff ⟨1, [(0, { method := some "GET" })]⟩ 0 = some (h₁, rh) ∧
      rh ≠ 0 ∧
      h₁.lookupRef rh = some { method := some "GET" } ∧
      h₁.lookupRef 0 = some { method := some "GET" } ∧
      (∀ w : CfRec, (h₁.writeRef rh w).lookupRef 0 = some { method := some "GET" }) ∧
      (∀ h₂ rOut, observeResult h₁ rh = some (h₂, rOut) →
        rOut ≠ rh ∧
        ∀ w : CfRec,
          (h₂.writeRef rh w).lookupRef rOut = h₂.lookupRef rOut ∧
          (h₂.writeRef rh w).lookupRef rOut = some { method := some "GET" } ∧
          ((h₂.writeRef rh w).lookupRef rOut).map (·.method) = some (some "GET")) :=
  invokeDeepCopyIsolation ⟨1, [(0, { method := some "GET" })]⟩ 0
    { method := some "GET" }
    (by intro p hp; rw [List.mem_singleton.mp hp]; exact Nat.one_pos) rfl

/-! ## Claim C8: path/query split and rejoin -/

theorem splitFirst_not_mem (c : Char) (l : List Char) (hc : c ∉ l) :
    splitFirst c l = (l, none) := by
  induction l with
  | nil => rfl
  | cons x xs ih =>
    have hx : x ≠ c := fun hh => hc (hh ▸ List.mem_cons_self x xs)
    have hxs : c ∉ xs := fun hh => hc (List.mem_cons_of_mem _ hh)
    simp only [splitFirst, if_neg hx, ih hxs]

theorem splitFirst_append (c : Char) (a b : List Char) (ha : c ∉ a) :
    splitFirst c (a ++ c :: b) = (a, some b) := by
  induction a with
  | nil => simp [splitFirst]
  | cons x xs ih =>
    have hx : x ≠ c := fun hh => ha (hh ▸ List.mem_cons_self x xs)
    have hxs : c ∉ xs := fun hh => ha (List.mem_cons_of_mem _ hh)
    simp only [List.cons_append, splitFirst, if_neg hx, List.append_eq, ih hxs]

theorem normSegments_no_dots (segs : List (List Char))
    (hd : ∀ seg ∈ segs, seg ≠ ['.'] ∧ seg ≠ ['.', '.']) :
    ∀ stack, normSegments stack segs = stack ++ segs := by
  induction segs with
  | nil => intro stack; simp [normSegments]
  | cons seg rest ih =>
    intro stack
    have hseg := hd seg (by simp)
    cases rest with
    | nil =>
      simp only [normSegments, if_neg hseg.2, if_neg hseg.1]
    | cons s2 r2 =>
      have hd' : ∀ s ∈ s2 :: r2, s ≠ ['.'] ∧ s ≠ ['.', '.'] :=
        fun s hs => hd s (List.mem_cons_of_mem _ hs)
      simp only [normSegments, if_neg hseg.2, if_neg hseg.1, ih hd' (stack ++ [seg])]
      simp

theorem splitSegs_ne_nil (l : List Char) : splitSegs l ≠ [] := by
  cases l with
  | nil => simp [splitSegs]
  | cons c cs =>
    by_cases hc : c = '/'
    · simp [splitSegs, hc]
    · simp only [splitSegs, if_neg hc]
      cases hs : splitSegs cs with
      | nil => simp
      | cons s rest => simp

theorem joinSegs_splitSegs (l : List Char) : joinSegs (splitSegs l) = l := by
  induction l with
  | nil => rfl
  | cons c cs ih =>
    by_cases hc : c = '/'
    · subst hc
      simp only [splitSegs, if_pos rfl]
      cases hs : splitSegs cs with
      | nil => exact absurd hs (splitSegs_ne_nil cs)
      | cons s rest =>
        show [] ++ '/' :: joinSegs (s :: rest) = '/' :: cs
        rw [List.nil_append, ← hs, ih]
    · simp only [splitSegs, if_neg hc]
      cases hs : splitSegs cs with
      | nil => exact absurd hs (splitSegs_ne_nil cs)
      | cons s rest =>
        cases rest with
        | nil =>
          show c :: s = c :: cs
          have : joinSegs [s] = cs := hs ▸ ih
          simpa [joinSegs] using this
        | cons s2 r2 =>
          show (c :: s) ++ '/' :: joinSegs (s2 :: r2) = c :: cs
          have : s ++ '/' :: joinSegs (s2 :: r2) = cs := by
            have hj : joinSegs (s :: s2 :: r2) = cs := hs ▸ ih
            simpa [joinSegs] using hj
          simp [this]

theorem strData_append (a b : String) : (a ++ b).data = a.data ++ b.data := by
  cases a
  cases b
  rfl

/-- The WHATWG pass-through characters modelled by `parseTarget`: inputs
made of these need no percent-encoding, backslash rewriting, or authority
parsing, so `new URL` keeps them verbatim in `pathname`/`search`. -/
def urlSafeChar (c : Char) : Bool :=
  c.isAlpha || c.isDigit ||
    (c == '-' || c == '.' || c == '_' || c == '~' || c == '!' || c == '$' ||
     c == '&' || c == '(' || c == ')' || c == '*' || c == '+' || c == ',' ||
     c == ';' || c == '=' || c == ':' || c == '@' || c == '/' || c == '?')

theorem parseTarget_noQuery (p : String)
    (hp0 : p.data.head? = some '/')
    (hpq : '?' ∉ p.data)
    (hpsafe : ∀ c ∈ p.data, urlSafeChar c = true)
    (hdots : ∀ seg ∈ splitSegs p.data.tail, seg ≠ ['.'] ∧ seg ≠ ['.', '.']) :
    parseTarget p = (p, "") := by
  obtain ⟨tl, htl⟩ := List.head?_eq_some_iff.mp hp0
  have hne : p ≠ "" := by
    intro hh
    rw [hh] at htl
    exact absurd htl (by simp)
  have hhash : '#' ∉ p.data := fun hmem => absurd (hpsafe '#' hmem) (by decide)
  have h1 : splitFirst '#' p.data = (p.data, none) :=
    splitFirst_not_mem '#' p.data hhash
  have h2 : splitFirst '?' p.data = (p.data, none) :=
    splitFirst_not_mem '?' p.data hpq
  have hdots' : ∀ seg ∈ splitSegs tl, seg ≠ ['.'] ∧ seg ≠ ['.', '.'] := by
    rw [htl] at hdots
    exact hdots
  rw [htl] at h1 h2
  simp only [parseTarget, if_neg hne, htl, h1, h2, List.head?_cons,
    List.tail_cons, Option.getD_none, reduceIte]
  rw [normSegments_no_dots _ hdots' [], List.nil_append, joinSegs_splitSegs,
    ← htl]

theorem parseTarget_withQuery (p q : String)
    (hp0 : p.data.head? = some '/')
    (hpq : '?' ∉ p.data)
    (hpsafe : ∀ c ∈ p.data, urlSafeChar c = true)
    (hqsafe : ∀ c ∈ q.data, urlSafeChar c = true)
    (hdots : ∀ seg ∈ splitSegs p.data.tail, seg ≠ ['.'] ∧ seg ≠ ['.', '.']) :
    parseTarget (p ++ "?" ++ q) = (p, q) := by
  obtain ⟨tl, htl⟩ := List.head?_eq_some_iff.mp hp0
  have hdata : (p ++ "?" ++ q).data = p.data ++ '?' :: q.data := by
    rw [strData_append, strData_append, List.append_assoc]
    rfl
  have hne : p ++ "?" ++ q ≠ "" := by
    intro hh
    have hd : (p ++ "?" ++ q).data = [] := by rw [hh]
    rw [hdata] at hd
    simp at hd
  have hhash : '#' ∉ p.data ++ '?' :: q.data := by
    intro hmem
    rcases List.mem_append.mp hmem with h | h
    · exact absurd (hpsafe '#' h) (by decide)
    · rcases List.mem_cons.mp h with h | h
      · simp at h
      · exact absurd (hqsafe '#' h) (by decide)
  have h1 : splitFirst '#' (p.data ++ '?' :: q.data)
      = (p.data ++ '?' :: q.data, none) := splitFirst_not_mem '#' _ hhash
  have h2 : splitFirst '?' (p.data ++ '?' :: q.data) = (p.data, some q.data) :=
    splitFirst_append '?' p.data q.data hpq
  have hdots' : ∀ seg ∈ splitSegs tl, seg ≠ ['.'] ∧ seg ≠ ['.', '.'] := by
    rw [htl] at hdots
    exact hdots
  rw [htl] at h1 h2 hdata
  simp only [parseTarget, if_neg hne, hdata, h1, h2, List.head?_cons,
    List.tail_cons, Option.getD_some, reduceIte]
  rw [normSegments_no_dots _ hdots' [], List.nil_append, joinSegs_splitSegs,
    ← htl]

theorem runRequestHook_noMods (req : HttpReq) :
    runRequestHook {} req =
      .ok ({ flatten (buildRequestRecord req) with
              ftype := (buildRequestRecord req).rtype }, []) := rfl

theorem flatten_url (r : CfRec) (u : String) (hu : r.uri = some u)
    (hne : u ≠ "") :
    (flatten r).url = some
      (if strTruthy r.querystring = true
       then u ++ "?" ++ r.querystring.getD "" else u) := by
  have hbne : (u != "") = true := bne_iff_ne.mpr hne
  unfold flatten
  rw [hu]
  simp only [hbne, if_pos]

/-- C8, counterexample: a request target with a trailing `?` (an empty
query) does not round-trip — the record is built with `querystring = ""`,
and the rejoined addressable path drops the `?`. -/
theorem urlRoundTripFails_cex :
    (runRequestHook {} { url := some "/page?" }).map (fun o => o.1.url)
      = .ok (some "/page")
    ∧ some "/page" ≠ some "/page?" := ⟨rfl, by decide⟩

/-- C8 (amended): the inbound URL is split at the first `?` into `uri` and
`querystring` (dot segments normalized, fragment stripped), and at the end
of the request-side machine the addressable `url` equals
`uri ++ "?" ++ querystring` when the final record's `querystring` is truthy
and `uri` alone otherwise; for an already-normalized origin-form target
(leading single `/`, pass-through characters, no dot segments) with a
non-empty query — or with no `?` at all — the split-then-rejoin round-trips
the original string.  A trailing `?` with an empty query is dropped (see
the counterexample). -/
theorem urlSplitRejoin (p q : String)
    (hp0 : p.data.head? = some '/')
    (hp2 : p.data.tail.head? ≠ some '/')
    (hpq : '?' ∉ p.data)
    (hqne : q ≠ "")
    (hpsafe : ∀ c ∈ p.data, urlSafeChar c = true)
    (hqsafe : ∀ c ∈ q.data, urlSafeChar c = true)
    (hdots : ∀ seg ∈ splitSegs p.data.tail, seg ≠ ['.'] ∧ seg ≠ ['.', '.']) :
    (∀ (r : CfRec) (u : String), r.uri = some u → u ≠ "" →
      (flatten r).url = some
        (if strTruthy r.querystring = true
         then u ++ "?" ++ r.querystring.getD "" else u))
    ∧ parseTarget (p ++ "?" ++ q) = (p, q)
    ∧ (runRequestHook {} { url := some (p ++ "?" ++ q) }).map (fun o => o.1.url)
        = .ok (some (p ++ "?" ++ q))
    ∧ (runRequestHook {} { url := some p }).map (fun o => o.1.url)
        = .ok (some p) := by
  have hpne : p ≠ "" := by
    intro hh
    rw [hh] at hp0
    exact absurd hp0 (by simp)
  have hparse := parseTarget_withQuery p q hp0 hpq hpsafe hqsafe hdots
  have hparse0 := parseTarget_noQuery p hp0 hpq hpsafe hdots
  refine ⟨fun r u hu hne => flatten_url r u hu hne, hparse, ?_, ?_⟩
  · rw [runRequestHook_noMods]
    have hb : (buildRequestRecord { url := some (p ++ "?" ++ q) }).uri
        = some (parseTarget (p ++ "?" ++ q)).1 := rfl
    rw [hparse] at hb
    have hq : (buildRequestRecord { url := some (p ++ "?" ++ q) }).querystring
        = some (parseTarget (p ++ "?" ++ q)).2 := rfl
    rw [hparse] at hq
    have hurl := flatten_url (buildRequestRecord { url := some (p ++ "?" ++ q) })
      p hb hpne
    rw [hq] at hurl
    have hqt : strTruthy (some q) = true := by
      simp [strTruthy, bne_iff_ne.mpr hqne]
    rw [hqt] at hurl
    simp only [if_pos rfl] at hurl
    simp [Except.map, hurl, Option.getD_some]
  · rw [runRequestHook_noMods]
    have hb : (buildRequestRecord { url := some p }).uri
        = some (parseTarget p).1 := rfl
    rw [hparse0] at hb
    have hq : (buildRequestRecord { url := some p }).querystring
        = some (parseTarget p).2 := rfl
    rw [hparse0] at hq
    have hurl := flatten_url (buildRequestRecord { url := some p }) p hb hpne
    rw [hq] at hurl
    have hqt : strTruthy (some "") = false := rfl
    rw [hqt] at hurl
    simp only [Bool.false_eq_true, if_neg] at hurl
    simp [Except.map, hurl]

/-- C8 witness: the round-trip theorem applied to
`/page?utm_source=twitter&other=keep`. -/
theorem urlSplitRejoin_witness :
    (runRequestHook {} { url := some ("/page" ++ "?" ++ "utm_source=twitter&other=keep") }).map
        (fun o => o.1.url)
      = .ok (some ("/page" ++ "?" ++ "utm_source=twitter&other=keep")) :=
  (urlSplitRejoin "/page" "utm_source=twitter&other=keep"
    (by decide) (by decide) (by decide) (by decide)
    (by decide) (by decide) (by decide)).2.2.1

/-! ## Claim C5: literal bake substitution -/

theorem bakeScan_nil (vars : List (String × String)) : bakeScan vars [] = [] := by
  unfold bakeScan
  rfl

theorem bakeScan_cons (vars : List (String × String)) (c : Char) (cs : List Char) :
    bakeScan vars (c :: cs) =
      match matchBakeToken (c :: cs) with
      | some (name, matched, after) =>
        (match lookupA vars (String.mk name) with
         | some v => v.data
         | none => matched) ++ bakeScan vars after
      | none => c :: bakeScan vars cs := by
  conv_lhs => unfold bakeScan
  split
  · rename_i name matched after heq
    rw [heq]
  · rename_i heq
    rw [heq]

theorem matchBakeToken_head_ne (c : Char) (cs : List Char) (hc : c ≠ '_') :
    matchBakeToken (c :: cs) = none := by
  cases cs with
  | nil => rfl
  | cons c₂ t =>
    simp only [matchBakeToken]
    rw [if_neg]
    exact fun hh => hc hh.1

/-- Scanning text that contains no token character copies it verbatim. -/
theorem bakeScan_plain (vars : List (String × String)) (l tail : List Char)
    (hl : ∀ c ∈ l, isBakeChar c = false) :
    bakeScan vars (l ++ tail) = l ++ bakeScan vars tail := by
  induction l with
  | nil => rfl
  | cons c cs ih =>
    have hc : c ≠ '_' := by
      intro hh
      have := hl c (by simp)
      rw [hh] at this
      exact absurd this (by decide)
    rw [List.cons_append, bakeScan_cons, matchBakeToken_head_ne c _ hc,
      ih (fun c' hc' => hl c' (List.mem_cons_of_mem _ hc'))]
    rfl

theorem bakeScan_plain_nil (vars : List (String × String)) (l : List Char)
    (hl : ∀ c ∈ l, isBakeChar c = false) :
    bakeScan vars l = l := by
  have h := bakeScan_plain vars l [] hl
  rw [List.append_nil, bakeScan_nil, List.append_nil] at h
  exact h

theorem takeWhile_of_head_neg (post : List Char)
    (hpost : ∀ c ∈ post, isBakeChar c = false) :
    post.takeWhile isBakeChar = [] := by
  cases post with
  | nil => rfl
  | cons c t => simp [List.takeWhile_cons, hpost c (by simp)]

theorem dropWhile_of_head_neg (post : List Char)
    (hpost : ∀ c ∈ post, isBakeChar c = false) :
    post.dropWhile isBakeChar = post := by
  cases post with
  | nil => rfl
  | cons c t => simp [List.dropWhile_cons, hpost c (by simp)]

theorem backtrackEnd_token (name : List Char) (hn1 : name ≠ []) :
    backtrackEnd (name ++ ['_', '_']) = some name.length := by
  have hn : 0 < name.length := List.length_pos.mpr hn1
  have hlen : (name ++ ['_', '_']).length = name.length + 2 := by simp
  have hget1 : (name ++ ['_', '_']).get? (name.length + 1) = some '_' := by
    rw [List.get?_eq_getElem?, List.getElem?_append_right (by omega)]
    simp
  have hget2 : (name ++ ['_', '_']).get? (name.length + 2) = none := by
    rw [List.get?_eq_getElem?, List.getElem?_eq_none]
    omega
  have hget0 : (name ++ ['_', '_']).get? name.length = some '_' := by
    rw [List.get?_eq_getElem?, List.getElem?_append_right (by omega)]
    simp
  unfold backtrackEnd
  rw [hlen,
    show List.range (name.length + 2)
      = List.range (name.length + 1) ++ [name.length + 1] from List.range_succ _,
    List.reverse_append, List.reverse_singleton, List.singleton_append]
  rw [List.find?_cons_of_neg]
  swap
  · show ¬ (decide (1 ≤ name.length + 1)
      && ((name ++ ['_', '_']).get? (name.length + 1) == some '_')
      && ((name ++ ['_', '_']).get? (name.length + 1 + 1) == some '_')) = true
    rw [show name.length + 1 + 1 = name.length + 2 from rfl, hget2]
    simp
  rw [show List.range (name.length + 1)
      = List.range name.length ++ [name.length] from List.range_succ _,
    List.reverse_append, List.reverse_singleton, List.singleton_append]
  rw [List.find?_cons_of_pos]
  show (decide (1 ≤ name.length)
      && ((name ++ ['_', '_']).get? name.length == some '_')
      && ((name ++ ['_', '_']).get? (name.length + 1) == some '_')) = true
  rw [hget0, hget1]
  simpa using hn

theorem matchBakeToken_token (name post : List Char) (hn1 : name ≠ [])
    (hn2 : ∀ c ∈ name, isBakeChar c = true)
    (hpost : ∀ c ∈ post, isBakeChar c = false) :
    matchBakeToken ('_' :: '_' :: (name ++ '_' :: '_' :: post))
      = some (name, '_' :: '_' :: (name ++ ['_', '_']), post) := by
  have hsplit : name ++ '_' :: '_' :: post = (name ++ ['_', '_']) ++ post := by
    simp
  have hallbake : ∀ c ∈ name ++ ['_', '_'], isBakeChar c = true := by
    intro c hc
    rcases List.mem_append.mp hc with h | h
    · exact hn2 c h
    · rcases List.mem_cons.mp h with rfl | h
      · decide
      · rcases List.mem_singleton.mp h with rfl
        decide
  have htake : (name ++ '_' :: '_' :: post).takeWhile isBakeChar
      = name ++ ['_', '_'] := by
    rw [hsplit, List.takeWhile_append_of_pos hallbake,
      takeWhile_of_head_neg post hpost, List.append_nil]
  have hdrop : (name ++ '_' :: '_' :: post).dropWhile isBakeChar = post := by
    rw [hsplit, List.dropWhile_append_of_pos hallbake,
      dropWhile_of_head_neg post hpost]
  have hlen : (name ++ ['_', '_']).length = name.length + 2 := by simp
  simp only [matchBakeToken, htake, hdrop, backtrackEnd_token name hn1,
    and_self, if_true]
  rw [List.take_left' rfl, List.take_of_length_le (by omega),
    List.drop_of_length_le (by omega), List.nil_append]

/-- C5: bake substitution replaces each `__NAME__` token (NAME drawn from
uppercase letters, digits, underscore, dot, dash) by exactly the literal
string `bakeVars[NAME]` when the key is present — the replacer function's
return value is spliced verbatim, so values containing `$` sequences are
not corrupted — and leaves the token unchanged when the key is absent.
The surrounding text is arbitrary text with no token characters. -/
theorem bakeTokenSubstitution (vars : List (String × String))
    (name value pre post : String)
    (hn1 : name.data ≠ [])
    (hn2 : ∀ c ∈ name.data, isBakeChar c = true)
    (hpre : ∀ c ∈ pre.data, isBakeChar c = false)
    (hpost : ∀ c ∈ post.data, isBakeChar c = false) :
    (lookupA vars name = some value →
      bakeReplace vars (pre ++ "__" ++ name ++ "__" ++ post)
        = pre ++ value ++ post)
    ∧ (lookupA vars name = none →
      bakeReplace vars (pre ++ "__" ++ name ++ "__" ++ post)
        = pre ++ "__" ++ name ++ "__" ++ post) := by
  have hdata : (pre ++ "__" ++ name ++ "__" ++ post).data
      = pre.data ++ ('_' :: '_' :: (name.data ++ '_' :: '_' :: post.data)) := by
    rw [strData_append, strData_append, strData_append, strData_append]
    show pre.data ++ ['_', '_'] ++ name.data ++ ['_', '_'] ++ post.data = _
    simp
  have hmtok := matchBakeToken_token name.data post.data hn1 hn2 hpost
  have hscan : bakeScan vars (pre ++ "__" ++ name ++ "__" ++ post).data
      = pre.data ++
        ((match lookupA vars name with
          | some v => v.data
          | none => '_' :: '_' :: (name.data ++ ['_', '_'])) ++ post.data) := by
    rw [hdata, bakeScan_plain vars pre.data _ hpre, bakeScan_cons,
      hmtok]
    show pre.data ++
      ((match lookupA vars (String.mk name.data) with
        | some v => v.data
        | none => '_' :: '_' :: (name.data ++ ['_', '_'])) ++ bakeScan vars post.data) = _
    rw [bakeScan_plain_nil vars post.data hpost]
  constructor
  · intro hv
    have : bakeReplace vars (pre ++ "__" ++ name ++ "__" ++ post)
        = String.mk (pre.data ++ (value.data ++ post.data)) := by
      unfold bakeReplace
      rw [hscan, hv]
    rw [this]
    have hrhs : (pre ++ value ++ post).data = pre.data ++ (value.data ++ post.data) := by
      rw [strData_append, strData_append, List.append_assoc]
    rw [← hrhs]
  · intro hv
    have : bakeReplace vars (pre ++ "__" ++ name ++ "__" ++ post)
        = String.mk (pre.data ++ (('_' :: '_' :: (name.data ++ ['_', '_'])) ++ post.data)) := by
      unfold bakeReplace
      rw [hscan, hv]
    rw [this]
    have hrhs : (pre ++ "__" ++ name ++ "__" ++ post).data
        = pre.data ++ (('_' :: '_' :: (name.data ++ ['_', '_'])) ++ post.data) := by
      rw [hdata]
      simp
    rw [← hrhs]

/-- C5 witness: baking `API_KEY=secret-$&999` into a source line containing
`__API_KEY__` splices the value literally despite its `$` sequence, and an
absent key leaves the token unchanged. -/
theorem bakeTokenSubstitution_witness :
    bakeReplace [("API_KEY", "secret-$&999")]
        ("const key = " ++ "__" ++ "API_KEY" ++ "__" ++ ";")
      = "const key = " ++ "secret-$&999" ++ ";"
    ∧ bakeReplace [("OTHER", "x")]
        ("const key = " ++ "__" ++ "API_KEY" ++ "__" ++ ";")
      = "const key = " ++ "__" ++ "API_KEY" ++ "__" ++ ";" :=
  ⟨(bakeTokenSubstitution [("API_KEY", "secret-$&999")] "API_KEY"
      "secret-$&999" "const key = " ";"
      (by decide) (by decide) (by decide) (by decide)).1 rfl,
   (bakeTokenSubstitution [("OTHER", "x")] "API_KEY"
      "" "const key = " ";"
      (by decide) (by decide) (by decide) (by decide)).2 rfl⟩

end EdgeRunner
